import Mathlib

/-!
Shallow embedding of the helm-push plugin (cmd/helmpush/main.go): the
invocation-parameter structure, environment-variable resolution
(setFieldsFromEnv), the download URI parsing and client construction
(download), the push flow with its temporary-directory lifecycle (push),
the upload response interpretation (handlePushResponse), and the
command dispatcher (runE, from newPushCmd's RunE closure).

External collaborators (the chartmuseum client, the helm repo registry,
the chart loader, the packaging routine, the temp-dir allocator) are
parameters of a `World` structure; Go standard-library functions the
code calls (strconv.ParseBool, encoding/json Unmarshal into a struct
with one tagged string field, net/url.Parse restricted to
scheme://host/path URIs) are modelled as executable Lean functions.
Errors are Go error strings; stdout is a list of written strings; the
file system is the list of existing directory paths.
-/

namespace HelmPush

/-- The pushCmd struct of main.go: flag-bound fields plus the two
positional names. `useHTTP` has no flag binding; it starts at Go's zero
value `false` and is only ever set from the environment. -/
structure pushCmd where
  chartName    : String
  chartVersion : String
  repoName     : String
  username     : String
  password     : String
  accessToken  : String
  contextPath  : String
  useHTTP      : Bool
deriving Repr, DecidableEq

/-- Model of Go strconv.ParseBool with the error discarded, as in
`p.useHTTP, _ = strconv.ParseBool(v)`: the six truthy forms parse to
true; the six falsy forms parse to false; a malformed string makes
ParseBool return (false, err) and the discarded error leaves false. -/
def parseBoolOrFalse (v : String) : Bool :=
  ["1", "t", "T", "TRUE", "true", "True"].contains v

/-- setFieldsFromEnv of main.go: each string field falls back to its
environment variable only when the flag value is empty; useHTTP is
overwritten from HELM_REPO_USE_HTTP whenever that variable is set,
regardless of its prior value. The environment is an injected mapping
(os.LookupEnv). -/
def setFieldsFromEnv (env : String → Option String) (p : pushCmd) : pushCmd :=
  let p := match env "HELM_REPO_USERNAME" with
    | some v => if p.username = "" then { p with username := v } else p
    | none => p
  let p := match env "HELM_REPO_PASSWORD" with
    | some v => if p.password = "" then { p with password := v } else p
    | none => p
  let p := match env "HELM_REPO_ACCESS_TOKEN" with
    | some v => if p.accessToken = "" then { p with accessToken := v } else p
    | none => p
  let p := match env "HELM_REPO_CONTEXT_PATH" with
    | some v => if p.contextPath = "" then { p with contextPath := v } else p
    | none => p
  let p := match env "HELM_REPO_USE_HTTP" with
    | some v => { p with useHTTP := parseBoolOrFalse v }
    | none => p
  p

/-- Split a character list on every occurrence of a separator
character; the result always has at least one (possibly empty) part. -/
def splitChars (sep : Char) : List Char → List (List Char)
  | [] => [[]]
  | c :: cs =>
    match splitChars sep cs with
    | [] => [[]]
    | hd :: tl => if c = sep then [] :: hd :: tl else (c :: hd) :: tl

/-- Model of Go strings.Split(s, sep) for the single-character
separators this program uses, by structural recursion on the
characters so that it evaluates. -/
def splitOnSep (sep : Char) (s : String) : List String :=
  (splitChars sep s.data).map String.mk

/-- Model of Go strings.HasPrefix: the characters of pre lead the
characters of s. -/
def hasPrefixChars : List Char → List Char → Bool
  | [], _ => true
  | _ :: _, [] => false
  | p :: ps, c :: cs => p = c && hasPrefixChars ps cs

/-- strings.HasPrefix(s, pre) as the program calls it. -/
def hasPrefixString (s pre : String) : Bool :=
  hasPrefixChars pre.data s.data

/-- The components of a parsed URL that download uses (net/url.URL
restricted to Scheme, Host, Path). -/
structure URL where
  scheme : String
  host   : String
  path   : String
deriving Repr, DecidableEq

/-- Model of (net/url.URL).String() for scheme://host/path URLs. -/
def urlToString (u : URL) : String :=
  u.scheme ++ "://" ++ u.host ++ u.path

/-- Locate the first `://` in a character list, returning the text
before it and the text after it. -/
def breakScheme : List Char → Option (List Char × List Char)
  | ':' :: '/' :: '/' :: rest => some ([], rest)
  | c :: cs => (breakScheme cs).map (fun pr => (c :: pr.1, pr.2))
  | [] => none

/-- Model of net/url.Parse restricted to the `scheme://host[/path]`
URIs the downloader receives: the scheme is the text before the first
`://`, the host runs to the next `/`, and the path is the rest
including its leading slash (empty when the URI ends at the host). -/
def parseURL (s : String) : Option URL :=
  match breakScheme s.data with
  | none => none
  | some (schemeChars, rest) =>
    some ⟨String.mk schemeChars,
          String.mk (rest.takeWhile (fun c => c != '/')),
          String.mk (rest.dropWhile (fun c => c != '/'))⟩

/-- The options passed to cm.NewClient: URL, Username, Password,
AccessToken, ContextPath. -/
structure ClientConfig where
  url         : String
  username    : String
  password    : String
  accessToken : String
  contextPath : String
deriving Repr, DecidableEq

/-- Lines 157-178 of main.go: split the parsed path on "/", reject
fewer than two parts, take the last part as the file path, prepend
"charts/" and drop one extra trailing segment when the second-to-last
part is literally "charts", rejoin the remaining segments as the new
path, and force the scheme from useHTTP. Returns the rebuilt URL and
the file path to request. -/
def downloadTarget (p : pushCmd) (fileURL : String) (u : URL) :
    Except String (URL × String) :=
  let parts := splitOnSep '/' u.path
  let numParts := parts.length
  if numParts ≤ 1 then
    .error ("invalid file url: " ++ fileURL)
  else
    let filePath := parts.getD (numParts - 1) ""
    let isCharts := parts.getD (numParts - 2) "" = "charts"
    let numRemoveParts := if isCharts then 2 else 1
    let filePath := if isCharts then "charts/" ++ filePath else filePath
    let newPath := String.intercalate "/" (parts.take (numParts - numRemoveParts))
    let scheme := if p.useHTTP then "http" else "https"
    .ok (⟨scheme, u.host, newPath⟩, filePath)

/-- JSON values, as far as json.Unmarshal into `struct{Error string}`
needs them: only the string payloads and the top-level object fields
matter, so numbers carry no value. -/
inductive JValue where
  | null
  | jbool (b : Bool)
  | num
  | str (s : String)
  | arr (elems : List JValue)
  | obj (fields : List (String × JValue))
deriving Repr

/-- Consume leading JSON whitespace (space, tab, newline, carriage
return). -/
def jskipWs : List Char → List Char
  | [] => []
  | c :: cs => if c = ' ' ∨ c = '\t' ∨ c = '\n' ∨ c = '\r' then jskipWs cs else c :: cs

/-- Value of one hex digit, for the \uXXXX escape. -/
def hexDigitVal (c : Char) : Option Nat :=
  if '0' ≤ c ∧ c ≤ '9' then some (c.toNat - '0'.toNat)
  else if 'a' ≤ c ∧ c ≤ 'f' then some (c.toNat - 'a'.toNat + 10)
  else if 'A' ≤ c ∧ c ≤ 'F' then some (c.toNat - 'A'.toNat + 10)
  else none

/-- Parse the body of a JSON string after its opening quote, decoding
the standard escapes; raw control characters are rejected as the Go
scanner does. Returns the decoded string and the input past the closing
quote. -/
def jstringBody : List Char → Option (String × List Char)
  | [] => none
  | '"' :: cs => some ("", cs)
  | '\\' :: '"' :: cs => (jstringBody cs).map (fun sr => (String.singleton '"' ++ sr.1, sr.2))
  | '\\' :: '\\' :: cs => (jstringBody cs).map (fun sr => (String.singleton '\\' ++ sr.1, sr.2))
  | '\\' :: '/' :: cs => (jstringBody cs).map (fun sr => (String.singleton '/' ++ sr.1, sr.2))
  | '\\' :: 'b' :: cs => (jstringBody cs).map (fun sr => (String.singleton (Char.ofNat 8) ++ sr.1, sr.2))
  | '\\' :: 'f' :: cs => (jstringBody cs).map (fun sr => (String.singleton (Char.ofNat 12) ++ sr.1, sr.2))
  | '\\' :: 'n' :: cs => (jstringBody cs).map (fun sr => (String.singleton '\n' ++ sr.1, sr.2))
  | '\\' :: 'r' :: cs => (jstringBody cs).map (fun sr => (String.singleton '\r' ++ sr.1, sr.2))
  | '\\' :: 't' :: cs => (jstringBody cs).map (fun sr => (String.singleton '\t' ++ sr.1, sr.2))
  | '\\' :: 'u' :: a :: b :: c :: d :: cs =>
    (match hexDigitVal a, hexDigitVal b, hexDigitVal c, hexDigitVal d with
     | some va, some vb, some vc, some vd =>
       (jstringBody cs).map
         (fun sr => (String.singleton (Char.ofNat (va * 4096 + vb * 256 + vc * 16 + vd)) ++ sr.1, sr.2))
     | _, _, _, _ => none)
  | '\\' :: _ => none
  | c :: cs =>
    if c.toNat < 32 then none
    else (jstringBody cs).map (fun sr => (String.singleton c ++ sr.1, sr.2))

/-- Consume a run of decimal digits. -/
def jdigits : List Char → List Char
  | [] => []
  | c :: cs => if c.isDigit then jdigits cs else c :: cs

/-- Parse the optional fraction and exponent of a JSON number, after
its integer part. -/
def jfracExp (cs : List Char) : Option (List Char) :=
  let afterFrac : Option (List Char) :=
    match cs with
    | '.' :: c :: rest => if c.isDigit then some (jdigits rest) else none
    | _ => some cs
  match afterFrac with
  | none => none
  | some cs2 =>
    match cs2 with
    | 'e' :: rest | 'E' :: rest =>
      (match rest with
       | '+' :: c :: r => if c.isDigit then some (jdigits r) else none
       | '-' :: c :: r => if c.isDigit then some (jdigits r) else none
       | c :: r => if c.isDigit then some (jdigits r) else none
       | [] => none)
    | _ => some cs2

/-- Parse a JSON number after its optional minus sign: a leading zero
takes no further integer digits, as in the Go scanner. -/
def jnumberTail : List Char → Option (List Char)
  | [] => none
  | '0' :: rest => jfracExp rest
  | c :: rest => if c.isDigit then jfracExp (jdigits rest) else none

mutual

/-- Parse one JSON value, fuel-bounded for nesting. -/
def jvalue : Nat → List Char → Option (JValue × List Char)
  | 0, _ => none
  | fuel + 1, cs =>
    match jskipWs cs with
    | [] => none
    | '"' :: rest => (jstringBody rest).map (fun sr => (JValue.str sr.1, sr.2))
    | 't' :: 'r' :: 'u' :: 'e' :: rest => some (JValue.jbool true, rest)
    | 'f' :: 'a' :: 'l' :: 's' :: 'e' :: rest => some (JValue.jbool false, rest)
    | 'n' :: 'u' :: 'l' :: 'l' :: rest => some (JValue.null, rest)
    | '{' :: rest =>
      (match jskipWs rest with
       | '}' :: rest2 => some (JValue.obj [], rest2)
       | _ => (jmembers fuel rest).map (fun mr => (JValue.obj mr.1, mr.2)))
    | '[' :: rest =>
      (match jskipWs rest with
       | ']' :: rest2 => some (JValue.arr [], rest2)
       | _ => (jelems fuel rest).map (fun er => (JValue.arr er.1, er.2)))
    | '-' :: rest => (jnumberTail rest).map (fun r => (JValue.num, r))
    | c :: rest =>
      if c.isDigit then (jnumberTail (c :: rest)).map (fun r => (JValue.num, r)) else none

/-- Parse the members of a JSON object after its opening brace, up to
and including the closing brace. -/
def jmembers : Nat → List Char → Option (List (String × JValue) × List Char)
  | 0, _ => none
  | fuel + 1, cs =>
    match jskipWs cs with
    | '"' :: rest =>
      (match jstringBody rest with
       | none => none
       | some (key, rest2) =>
         match jskipWs rest2 with
         | ':' :: rest3 =>
           (match jvalue fuel rest3 with
            | none => none
            | some (v, rest4) =>
              match jskipWs rest4 with
              | ',' :: rest5 => (jmembers fuel rest5).map (fun mr => ((key, v) :: mr.1, mr.2))
              | '}' :: rest5 => some ([(key, v)], rest5)
              | _ => none)
         | _ => none)
    | _ => none

/-- Parse the elements of a JSON array after its opening bracket, up to
and including the closing bracket. -/
def jelems : Nat → List Char → Option (List JValue × List Char)
  | 0, _ => none
  | fuel + 1, cs =>
    match jvalue fuel cs with
    | none => none
    | some (v, rest) =>
      match jskipWs rest with
      | ',' :: rest2 => (jelems fuel rest2).map (fun er => (v :: er.1, er.2))
      | ']' :: rest2 => some ([v], rest2)
      | _ => none

end

/-- Whether a JSON object key selects the struct field tagged "error":
Go matches the tag exactly or, failing that, case-insensitively, and
with a single candidate field this folds to a case-insensitive
comparison. -/
def matchesErrorKey (k : String) : Bool :=
  k.data.map Char.toLower = "error".data

/-- Fold the object fields as json.Unmarshal assigns them: a later
matching key overwrites an earlier one; a matching key whose value is
not a string records a type error that makes Unmarshal return non-nil,
modelled as none. -/
def errorFieldOfObj (fields : List (String × JValue)) : Option String :=
  fields.foldl
    (fun acc kv =>
      if matchesErrorKey kv.1 then
        match acc, kv.2 with
        | some _, JValue.str s => some s
        | _, _ => none
      else acc)
    (some "")

/-- Model of json.Unmarshal(b, &er) for `var er struct{ Error string }`:
some e when Unmarshal returns nil and leaves er.Error = e, none when it
returns a non-nil error (syntax error, trailing data, top-level value
that is not an object or null, or a non-string "error" member). -/
def unmarshalErrorField (s : String) : Option String :=
  match jvalue (2 * s.length + 4) s.data with
  | none => none
  | some (v, rest) =>
    if jskipWs rest = [] then
      match v with
      | JValue.obj fields => errorFieldOfObj fields
      | JValue.null => some ""
      | _ => none
    else none

/-- The parts of an http.Response that handlePushResponse reads, with
the body already read into a string (the body-read I/O failure path is
not modelled). -/
structure UploadResponse where
  statusCode : Nat
  body : String
deriving Repr, DecidableEq

/-- handlePushResponse of main.go: anything but 201 is an error whose
message is the status code followed by the JSON "error" field when the
body unmarshals with a non-empty one, and otherwise by the fixed parse
diagnostic and the raw body; 201 prints Done and succeeds. Returns the
result and the lines written to stdout. -/
def handlePushResponse (resp : UploadResponse) : Except String Unit × List String :=
  if resp.statusCode ≠ 201 then
    (match unmarshalErrorField resp.body with
     | some e =>
       if e = "" then
         Except.error (toString resp.statusCode ++ ": could not properly parse response JSON: " ++ resp.body)
       else
         Except.error (toString resp.statusCode ++ ": " ++ e)
     | none =>
       Except.error (toString resp.statusCode ++ ": could not properly parse response JSON: " ++ resp.body),
     [])
  else
    (Except.ok (), ["Done.\n"])

/-- The fields of helm.Repo that push reads (helm.GetRepoByName
result). -/
structure RepoRecord where
  url      : String
  username : String
  password : String
deriving Repr, DecidableEq

/-- The fields of a chart that push touches: its package display name
comes from the packaging collaborator, so only the mutable version
matters here. -/
structure Chart where
  name    : String
  version : String
deriving Repr, DecidableEq

/-- The external collaborators of both flows, injected so the flows are
deterministic functions: the environment, the repo registry
(helm.GetRepoByName), the chart loader (helm.GetChartByName), the
temporary-directory allocator (ioutil.TempDir), the packaging routine
(helm.CreateChartPackage), the upload and download client calls, and
the set of directories existing on disk. -/
structure World where
  env          : String → Option String
  registry     : String → Except String RepoRecord
  charts       : String → Except String Chart
  tempDir      : Except String String
  packageFn    : Chart → String → Except String String
  upload       : ClientConfig → String → Except String UploadResponse
  downloadFile : ClientConfig → String → Except String String
  fs           : List String

/-- Model of path/filepath.Base for slash-separated paths. -/
def baseName (s : String) : String :=
  if s = "" then "."
  else ((splitOnSep '/' s).filter (fun x => x != "")).getLastD "/"

/-- push of main.go: repo lookup, chart lookup, in-memory version
override, flag-over-repo credential merge, client construction, temp
dir creation with a deferred RemoveAll, packaging, upload, and response
handling. Returns the result, the stdout lines, and the directories
existing after the deferred removal ran. -/
def push (w : World) (p : pushCmd) : Except String Unit × List String × List String :=
  match w.registry p.repoName with
  | .error e => (.error e, [], w.fs)
  | .ok repo =>
    match w.charts p.chartName with
    | .error e => (.error e, [], w.fs)
    | .ok chart0 =>
      let chart := if p.chartVersion ≠ "" then { chart0 with version := p.chartVersion } else chart0
      let username := if p.username ≠ "" then p.username else repo.username
      let password := if p.password ≠ "" then p.password else repo.password
      let client : ClientConfig := ⟨repo.url, username, password, p.accessToken, p.contextPath⟩
      match w.tempDir with
      | .error e => (.error e, [], w.fs)
      | .ok tmp =>
        let fs1 := tmp :: w.fs
        match w.packageFn chart tmp with
        | .error e => (.error e, [], fs1.filter (fun d => d != tmp))
        | .ok chartPackagePath =>
          let out1 := ["Pushing " ++ baseName chartPackagePath ++ " to " ++ p.repoName ++ "...\n"]
          match w.upload client chartPackagePath with
          | .error e => (.error e, out1, fs1.filter (fun d => d != tmp))
          | .ok resp =>
            let hr := handlePushResponse resp
            (hr.1, out1 ++ hr.2, fs1.filter (fun d => d != tmp))

/-- download of main.go: echo the URL, parse it, echo the path, derive
the download target (rejecting too-short paths), echo the split
segments in fmt's slice format, build the client from the resolved
parameters, fetch, and print the contents. Returns the result and the
stdout writes in order. -/
def download (w : World) (p : pushCmd) (fileURL : String) : Except String Unit × List String :=
  let out0 := [fileURL ++ "\n"]
  match parseURL fileURL with
  | none => (.error ("parse " ++ fileURL ++ ": invalid URI"), out0)
  | some parsedURL =>
    let out1 := out0 ++ [parsedURL.path ++ "\n"]
    match downloadTarget p fileURL parsedURL with
    | .error e => (.error e, out1)
    | .ok (newURL, filePath) =>
      let out2 := out1 ++ ["[" ++ String.intercalate " " (splitOnSep '/' parsedURL.path) ++ "]\n"]
      let client : ClientConfig := ⟨urlToString newURL, p.username, p.password, p.accessToken, p.contextPath⟩
      match w.downloadFile client filePath with
      | .error e => (.error e, out2)
      | .ok contents => (.ok (), out2 ++ [contents])

/-- newPushCmd of main.go binds exactly five string flags (version,
username, password, access-token, context-path) over a zero-valued
pushCmd: there is no flag for useHTTP, so it starts false. -/
def initPushCmd (version username password accessToken contextPath : String) : pushCmd :=
  ⟨"", version, "", username, password, accessToken, contextPath, false⟩

/-- The RunE closure of newPushCmd: four arguments whose last starts
with cm:// select download mode after the environment merge; otherwise
exactly two arguments name the chart and the repository for push
mode. -/
def runE (w : World) (p0 : pushCmd) (args : List String) :
    Except String Unit × List String × List String :=
  if args.length = 4 ∧ hasPrefixString (args.getD 3 "") "cm://" then
    let p := setFieldsFromEnv w.env p0
    let dl := download w p (args.getD 3 "")
    (dl.1, dl.2, w.fs)
  else if args.length ≠ 2 then
    (.error "This command needs 2 arguments: name of chart, name of chart repository", [], w.fs)
  else
    let p1 := { p0 with chartName := args.getD 0 "", repoName := args.getD 1 "" }
    push w (setFieldsFromEnv w.env p1)

/-- A zero-valued pushCmd, as Go builds with `&pushCmd{}`. -/
def defaultCmd : pushCmd :=
  ⟨"", "", "", "", "", "", "", false⟩

/-- A concrete world for witnesses: every collaborator succeeds and the
download client returns the bytes DATA. -/
def stubWorld : World :=
  ⟨fun _ => none,
   fun _ => Except.error "no repository loaded",
   fun _ => Except.error "no chart loaded",
   Except.ok "/tmp/helm-push-123",
   fun _ _ => Except.ok "/tmp/helm-push-123/c-1.0.0.tgz",
   fun _ _ => Except.ok ⟨201, ""⟩,
   fun _ _ => Except.ok "DATA",
   []⟩

/-- stubWorld with a different repository registry, for the
registry-noninterference witness. -/
def stubWorldAltRegistry : World :=
  ⟨fun _ => none,
   fun _ => Except.ok ⟨"https://other.example", "repouser", "repopass"⟩,
   fun _ => Except.error "no chart loaded",
   Except.ok "/tmp/helm-push-123",
   fun _ _ => Except.ok "/tmp/helm-push-123/c-1.0.0.tgz",
   fun _ _ => Except.ok ⟨201, ""⟩,
   fun _ _ => Except.ok "DATA",
   []⟩

/-- A world where push-mode collaborators all succeed, for the
temp-dir witness. -/
def stubWorldPush : World :=
  ⟨fun _ => none,
   fun _ => Except.ok ⟨"https://charts.example", "ru", "rp"⟩,
   fun n => Except.ok ⟨n, "0.1.0"⟩,
   Except.ok "/tmp/helm-push-123",
   fun _ _ => Except.ok "/tmp/helm-push-123/c-1.0.0.tgz",
   fun _ _ => Except.ok ⟨201, ""⟩,
   fun _ _ => Except.ok "DATA",
   ["/tmp"]⟩

/-- A concrete environment for witnesses. -/
def envSample : String → Option String := fun k =>
  if k = "HELM_REPO_USERNAME" then some "envuser"
  else if k = "HELM_REPO_PASSWORD" then some "envpass"
  else if k = "HELM_REPO_ACCESS_TOKEN" then some "envtoken"
  else if k = "HELM_REPO_CONTEXT_PATH" then some "/envctx"
  else if k = "HELM_REPO_USE_HTTP" then some "true"
  else none

/-- An environment that sets only a malformed HELM_REPO_USE_HTTP. -/
def envMalformedHTTP : String → Option String := fun k =>
  if k = "HELM_REPO_USE_HTTP" then some "yes" else none

/-- An environment with no variables set. -/
def envEmpty : String → Option String := fun _ => none

lemma getD_append_pair_last (init : List String) (s t : String) :
    (init ++ [s, t]).getD (init.length + 1) "" = t := by
  rw [List.getD_eq_getElem?_getD, List.getElem?_append_right (by omega)]
  have h : init.length + 1 - init.length = 1 := by omega
  rw [h]
  rfl

lemma getD_append_pair_penult (init : List String) (s t : String) :
    (init ++ [s, t]).getD init.length "" = s := by
  rw [List.getD_eq_getElem?_getD, List.getElem?_append_right (by omega)]
  have h : init.length - init.length = 0 := by omega
  rw [h]
  rfl

lemma take_append_pair (init : List String) (s t : String) :
    (init ++ [s, t]).take init.length = init :=
  List.take_left init [s, t]

lemma take_append_pair_succ (init : List String) (s t : String) :
    (init ++ [s, t]).take (init.length + 1) = init ++ [s] := by
  have h : init ++ [s, t] = (init ++ [s]) ++ [t] := by simp
  have h2 : init.length + 1 = (init ++ [s]).length := by simp
  rw [h, h2, List.take_left]

/-- C1: for a custom-scheme URI whose parsed path splits on "/" into at
least two segments, download takes the last segment as the file name,
prepends charts/ and removes the last two segments from the base path
when the second-to-last segment is literally "charts", and otherwise
removes only the last segment; in particular
cm://host/a/b/charts/foo-1.0.0.tgz gives file path charts/foo-1.0.0.tgz
with base path /a/b, and cm://host/a/b/foo-1.0.0.tgz gives file path
foo-1.0.0.tgz with base path /a/b. -/
theorem c1_context_path_rule (p : pushCmd) (fileURL : String) (u : URL)
    (init : List String) (s t : String)
    (hsplit : splitOnSep '/' u.path = init ++ [s, t]) :
    downloadTarget p fileURL u =
      Except.ok
        (⟨if p.useHTTP then "http" else "https", u.host,
          String.intercalate "/" (if s = "charts" then init else init ++ [s])⟩,
         if s = "charts" then "charts/" ++ t else t) ∧
    parseURL "cm://host/a/b/charts/foo-1.0.0.tgz" =
      some ⟨"cm", "host", "/a/b/charts/foo-1.0.0.tgz"⟩ ∧
    downloadTarget p "cm://host/a/b/charts/foo-1.0.0.tgz"
        ⟨"cm", "host", "/a/b/charts/foo-1.0.0.tgz"⟩ =
      Except.ok (⟨if p.useHTTP then "http" else "https", "host", "/a/b"⟩,
        "charts/foo-1.0.0.tgz") ∧
    parseURL "cm://host/a/b/foo-1.0.0.tgz" =
      some ⟨"cm", "host", "/a/b/foo-1.0.0.tgz"⟩ ∧
    downloadTarget p "cm://host/a/b/foo-1.0.0.tgz"
        ⟨"cm", "host", "/a/b/foo-1.0.0.tgz"⟩ =
      Except.ok (⟨if p.useHTTP then "http" else "https", "host", "/a/b"⟩,
        "foo-1.0.0.tgz") := by
  refine ⟨?_, by decide, ?_, by decide, ?_⟩
  · simp only [downloadTarget, hsplit]
    have hlen : (init ++ [s, t]).length = init.length + 2 := by simp
    rw [hlen, if_neg (by omega)]
    by_cases hc : s = "charts"
    · subst hc
      simp only [show init.length + 2 - 1 = init.length + 1 from rfl,
        show init.length + 2 - 2 = init.length from rfl,
        getD_append_pair_last, getD_append_pair_penult, if_pos rfl]
      simp [take_append_pair]
    · simp only [show init.length + 2 - 1 = init.length + 1 from rfl,
        show init.length + 2 - 2 = init.length from rfl,
        getD_append_pair_last, getD_append_pair_penult, if_neg hc]
      simp [hc, take_append_pair_succ]
  · cases hb : p.useHTTP <;> simp [downloadTarget, splitOnSep, splitChars, hb] <;> rfl
  · cases hb : p.useHTTP <;> simp [downloadTarget, splitOnSep, splitChars, hb] <;> rfl

/-- C1 witness: the theorem applied at the parsed path of
cm://host/a/b/charts/foo-1.0.0.tgz, whose split is
["", "a", "b"] ++ ["charts", "foo-1.0.0.tgz"]. -/
theorem c1_context_path_rule_witness :
    downloadTarget defaultCmd "cm://host/a/b/charts/foo-1.0.0.tgz"
        ⟨"cm", "host", "/a/b/charts/foo-1.0.0.tgz"⟩ =
      Except.ok
        (⟨"https", "host", "/a/b"⟩, "charts/foo-1.0.0.tgz") :=
  (c1_context_path_rule defaultCmd "cm://host/a/b/charts/foo-1.0.0.tgz"
    ⟨"cm", "host", "/a/b/charts/foo-1.0.0.tgz"⟩
    ["", "a", "b"] "charts" "foo-1.0.0.tgz" (by decide)).1

/-- C5 counterexample: the claim says cm://host/foo.tgz fails with
InvalidURI and performs no download, but its parsed path /foo.tgz
splits into the two segments ["", "foo.tgz"] because of the leading
slash, so download derives file path foo.tgz over an empty base path
and completes the download. -/
theorem c5_counterexample :
    parseURL "cm://host/foo.tgz" = some ⟨"cm", "host", "/foo.tgz"⟩ ∧
    splitOnSep '/' "/foo.tgz" = ["", "foo.tgz"] ∧
    downloadTarget defaultCmd "cm://host/foo.tgz" ⟨"cm", "host", "/foo.tgz"⟩ =
      Except.ok (⟨"https", "host", ""⟩, "foo.tgz") ∧
    (download stubWorld defaultCmd "cm://host/foo.tgz").1 = Except.ok () :=
  ⟨by decide, by decide, by rfl, by rfl⟩

/-- C5 amended: download fails with the invalid-file-url error exactly
for URIs whose parsed path splits on "/" into fewer than two segments;
a URI with a single path segment such as cm://host/foo.tgz is not such
a case (its leading slash contributes an empty first segment), while a
URI with no path at all, such as cm://host, is. -/
theorem c5_invalid_uri (p : pushCmd) (fileURL : String) (u : URL)
    (h : (splitOnSep '/' u.path).length ≤ 1) :
    downloadTarget p fileURL u = Except.error ("invalid file url: " ++ fileURL) ∧
    downloadTarget p "cm://host" ⟨"cm", "host", ""⟩ =
      Except.error ("invalid file url: " ++ "cm://host") ∧
    parseURL "cm://host" = some ⟨"cm", "host", ""⟩ := by
  refine ⟨?_, by rfl, by decide⟩
  simp only [downloadTarget]
  rw [if_pos h]

/-- C5 witness: the amended theorem applied to cm://host, whose empty
path splits into the single segment [""]. -/
theorem c5_invalid_uri_witness :
    downloadTarget defaultCmd "cm://host" ⟨"cm", "host", ""⟩ =
      Except.error ("invalid file url: " ++ "cm://host") :=
  (c5_invalid_uri defaultCmd "cm://host" ⟨"cm", "host", ""⟩ (by decide)).1

/-- C6: whenever download derives a target, the scheme of the URL the
client is built against is http when useInsecureHTTP is set and https
otherwise, and the computation ignores the scheme of the input URI
entirely. -/
theorem c6_forced_scheme (p : pushCmd) (fileURL : String) (u : URL) :
    (∀ r f, downloadTarget p fileURL u = Except.ok (r, f) →
      r.scheme = if p.useHTTP then "http" else "https") ∧
    (∀ s, downloadTarget p fileURL ⟨s, u.host, u.path⟩ = downloadTarget p fileURL u) := by
  constructor
  · intro r f h
    simp only [downloadTarget] at h
    by_cases hle : (splitOnSep '/' u.path).length ≤ 1
    · rw [if_pos hle] at h
      exact absurd h (by simp)
    · rw [if_neg hle] at h
      exact (congrArg (fun q => q.1.scheme) (Except.ok.inj h)).symm
  · intro s
    rfl

/-- C6 witness: the theorem applied to the default parameters (useHTTP
false) at cm://host/a/b/foo.tgz, which yields the https scheme. -/
theorem c6_forced_scheme_witness :
    URL.scheme ⟨"https", "host", "/a/b"⟩ =
      if defaultCmd.useHTTP then "http" else "https" :=
  (c6_forced_scheme defaultCmd "cm://host/a/b/foo.tgz"
    ⟨"cm", "host", "/a/b/foo.tgz"⟩).1 ⟨"https", "host", "/a/b"⟩ "foo.tgz" (by rfl)

/-- C3: for each of username, password, accessToken and contextPath, a
non-empty flag value survives the environment merge unchanged, and an
empty one takes the value of its environment variable when set and
stays empty otherwise (the getD "" collapses both of the latter
cases). -/
theorem c3_string_field_precedence (env : String → Option String) (p : pushCmd) :
    (p.username ≠ "" → (setFieldsFromEnv env p).username = p.username) ∧
    (p.username = "" →
      (setFieldsFromEnv env p).username = (env "HELM_REPO_USERNAME").getD "") ∧
    (p.password ≠ "" → (setFieldsFromEnv env p).password = p.password) ∧
    (p.password = "" →
      (setFieldsFromEnv env p).password = (env "HELM_REPO_PASSWORD").getD "") ∧
    (p.accessToken ≠ "" → (setFieldsFromEnv env p).accessToken = p.accessToken) ∧
    (p.accessToken = "" →
      (setFieldsFromEnv env p).accessToken = (env "HELM_REPO_ACCESS_TOKEN").getD "") ∧
    (p.contextPath ≠ "" → (setFieldsFromEnv env p).contextPath = p.contextPath) ∧
    (p.contextPath = "" →
      (setFieldsFromEnv env p).contextPath = (env "HELM_REPO_CONTEXT_PATH").getD "") := by
  unfold setFieldsFromEnv
  rcases h1 : env "HELM_REPO_USERNAME" with _ | v1 <;>
  rcases h2 : env "HELM_REPO_PASSWORD" with _ | v2 <;>
  rcases h3 : env "HELM_REPO_ACCESS_TOKEN" with _ | v3 <;>
  rcases h4 : env "HELM_REPO_CONTEXT_PATH" with _ | v4 <;>
  rcases h5 : env "HELM_REPO_USE_HTTP" with _ | v5 <;>
  refine ⟨fun h => ?_, fun h => ?_, fun h => ?_, fun h => ?_,
    fun h => ?_, fun h => ?_, fun h => ?_, fun h => ?_⟩ <;>
  simp [h, apply_ite pushCmd.username, apply_ite pushCmd.password, apply_ite pushCmd.accessToken, apply_ite pushCmd.contextPath, apply_ite pushCmd.useHTTP]

/-- C3 witness: with every environment variable set, an explicit
username wins over the environment, and an empty password field takes
the environment value. -/
theorem c3_string_field_precedence_witness :
    (setFieldsFromEnv envSample ⟨"", "", "", "flaguser", "", "", "", false⟩).username =
      "flaguser" ∧
    (setFieldsFromEnv envSample ⟨"", "", "", "flaguser", "", "", "", false⟩).password =
      "envpass" :=
  ⟨(c3_string_field_precedence envSample ⟨"", "", "", "flaguser", "", "", "", false⟩).1
      (by decide),
   ((c3_string_field_precedence envSample ⟨"", "", "", "flaguser", "", "", "", false⟩).2.2.2.1
      (by rfl)).trans (by decide)⟩

/-- C4: whenever HELM_REPO_USE_HTTP is set, the resolved useHTTP is the
discarded-error boolean parse of its value, whatever the field held
before; malformed strings parse to false, and the resolution itself is
a total function with no error outcome. -/
theorem c4_use_http_env_override (env : String → Option String) (p : pushCmd) (v : String) :
    (env "HELM_REPO_USE_HTTP" = some v →
      (setFieldsFromEnv env p).useHTTP = parseBoolOrFalse v) ∧
    parseBoolOrFalse "yes" = false ∧
    parseBoolOrFalse "bogus" = false ∧
    parseBoolOrFalse "0" = false ∧
    parseBoolOrFalse "true" = true ∧
    parseBoolOrFalse "1" = true := by
  refine ⟨fun h => ?_, by decide, by decide, by decide, by decide, by decide⟩
  unfold setFieldsFromEnv
  rcases h1 : env "HELM_REPO_USERNAME" with _ | v1 <;>
  rcases h2 : env "HELM_REPO_PASSWORD" with _ | v2 <;>
  rcases h3 : env "HELM_REPO_ACCESS_TOKEN" with _ | v3 <;>
  rcases h4 : env "HELM_REPO_CONTEXT_PATH" with _ | v4 <;>
  simp [h, apply_ite pushCmd.username, apply_ite pushCmd.password, apply_ite pushCmd.accessToken, apply_ite pushCmd.contextPath, apply_ite pushCmd.useHTTP]

/-- C4 witness: a flag-resolved useHTTP of true is overwritten by a
malformed environment value, which parses to false. -/
theorem c4_use_http_env_override_witness :
    (setFieldsFromEnv envMalformedHTTP ⟨"", "", "", "", "", "", "", true⟩).useHTTP =
      parseBoolOrFalse "yes" ∧
    parseBoolOrFalse "yes" = false :=
  ⟨(c4_use_http_env_override envMalformedHTTP ⟨"", "", "", "", "", "", "", true⟩ "yes").1
      (by rfl),
   (c4_use_http_env_override envMalformedHTTP ⟨"", "", "", "", "", "", "", true⟩ "yes").2.1⟩

/-- C9: the flag parser binds no flag to useHTTP, so it starts false;
when the environment does not set HELM_REPO_USE_HTTP it stays false,
and every download target derived under such an invocation carries the
https scheme. -/
theorem c9_no_http_flag (version username password accessToken contextPath : String)
    (env : String → Option String) (henv : env "HELM_REPO_USE_HTTP" = none) :
    (initPushCmd version username password accessToken contextPath).useHTTP = false ∧
    (setFieldsFromEnv env
      (initPushCmd version username password accessToken contextPath)).useHTTP = false ∧
    (∀ fileURL u r f,
      downloadTarget
        (setFieldsFromEnv env (initPushCmd version username password accessToken contextPath))
        fileURL u = Except.ok (r, f) →
      r.scheme = "https") := by
  have hflag : (initPushCmd version username password accessToken contextPath).useHTTP =
      false := rfl
  have hmerge : (setFieldsFromEnv env
      (initPushCmd version username password accessToken contextPath)).useHTTP = false := by
    unfold setFieldsFromEnv
    rcases h1 : env "HELM_REPO_USERNAME" with _ | v1 <;>
    rcases h2 : env "HELM_REPO_PASSWORD" with _ | v2 <;>
    rcases h3 : env "HELM_REPO_ACCESS_TOKEN" with _ | v3 <;>
    rcases h4 : env "HELM_REPO_CONTEXT_PATH" with _ | v4 <;>
    simp [henv, initPushCmd, apply_ite pushCmd.username, apply_ite pushCmd.password, apply_ite pushCmd.accessToken, apply_ite pushCmd.contextPath, apply_ite pushCmd.useHTTP]
  refine ⟨hflag, hmerge, fun fileURL u r f h => ?_⟩
  simp only [downloadTarget] at h
  by_cases hle : (splitOnSep '/' u.path).length ≤ 1
  · rw [if_pos hle] at h
    exact absurd h (by simp)
  · rw [if_neg hle] at h
    have hs := (congrArg (fun q => q.1.scheme) (Except.ok.inj h)).symm
    rw [hs, hmerge]
    rfl

/-- C9 witness: with an empty environment and arbitrary flag values,
the merged useHTTP is false. -/
theorem c9_no_http_flag_witness :
    (setFieldsFromEnv envEmpty (initPushCmd "" "u" "p" "" "")).useHTTP = false :=
  (c9_no_http_flag "" "u" "p" "" "" envEmpty (by rfl)).2.1

/-- C2 counterexample: for status 500 with the unparseable body
"not json", the error message is not the raw body after the status
code, as the claim states, but carries the fixed diagnostic text
"could not properly parse response JSON: " before the raw body. -/
theorem c2_counterexample :
    (handlePushResponse ⟨500, "not json"⟩).1 =
      Except.error ("500" ++ ": could not properly parse response JSON: " ++ "not json") ∧
    (handlePushResponse ⟨500, "not json"⟩).1 ≠
      Except.error ("500" ++ ": " ++ "not json") :=
  ⟨by rfl, fun h => absurd (Except.error.inj h) (by decide)⟩

/-- C2 amended: success exactly on status 201 regardless of body; any
other status fails with a message carrying the status code and then the
JSON error field when the body unmarshals with a non-empty one, and
otherwise the fixed parse diagnostic followed by the raw body verbatim;
409 with a conflict JSON body and 201 with any body behave as the
examples state. -/
theorem c2_response_interpretation (r : UploadResponse) :
    ((handlePushResponse r).1 = Except.ok () ↔ r.statusCode = 201) ∧
    (handlePushResponse r).2 = (if r.statusCode = 201 then ["Done.\n"] else []) ∧
    (∀ e, r.statusCode ≠ 201 → unmarshalErrorField r.body = some e → e ≠ "" →
      (handlePushResponse r).1 = Except.error (toString r.statusCode ++ ": " ++ e)) ∧
    (r.statusCode ≠ 201 →
      (unmarshalErrorField r.body = none ∨ unmarshalErrorField r.body = some "") →
      (handlePushResponse r).1 =
        Except.error
          (toString r.statusCode ++ ": could not properly parse response JSON: " ++ r.body)) ∧
    handlePushResponse ⟨409, "\x7b\"error\":\"conflict\"\x7d"⟩ =
      (Except.error ("409" ++ ": " ++ "conflict"), []) ∧
    handlePushResponse ⟨201, "ignored body"⟩ = (Except.ok (), ["Done.\n"]) := by
  refine ⟨⟨fun h => ?_, fun h => by simp [handlePushResponse, h]⟩, ?_, ?_, ?_, by rfl, by rfl⟩
  · by_contra hne
    simp only [handlePushResponse, if_pos hne] at h
    rcases hu : unmarshalErrorField r.body with _ | e
    · rw [hu] at h
      simp at h
    · rw [hu] at h
      by_cases he : e = ""
      · simp [he] at h
      · simp [he] at h
  · by_cases hc : r.statusCode = 201 <;> simp [handlePushResponse, hc]
  · intro e hne hu henon
    simp only [handlePushResponse, if_pos hne, hu]
    simp [henon]
  · intro hne hu
    rcases hu with hu | hu <;> (simp only [handlePushResponse, if_pos hne, hu]; try simp)

/-- C2 witness: the amended theorem applied to status 409 with body
having a JSON error field "conflict". -/
theorem c2_response_interpretation_witness :
    (handlePushResponse ⟨409, "\x7b\"error\":\"conflict\"\x7d"⟩).1 =
      Except.error (toString (409 : Nat) ++ ": " ++ "conflict") :=
  (c2_response_interpretation ⟨409, "\x7b\"error\":\"conflict\"\x7d"⟩).2.2.1 "conflict"
    (by decide) (by rfl) (by decide)

/-- C7: once the repository and chart lookups have succeeded and the
temporary directory has been created, every exit path of push —
packaging failure, upload failure, server-reported error, success —
runs the deferred RemoveAll, so the directory is absent from the final
file-system state. -/
theorem c7_tempdir_removed (w : World) (p : pushCmd) (tmp : String)
    (repo : RepoRecord) (chart : Chart)
    (hrepo : w.registry p.repoName = Except.ok repo)
    (hchart : w.charts p.chartName = Except.ok chart)
    (htmp : w.tempDir = Except.ok tmp) :
    tmp ∉ (push w p).2.2 := by
  simp only [push, hrepo, hchart, htmp]
  split <;> try split
  all_goals simp [List.mem_filter]

/-- C7 witness: the theorem applied to a world where every collaborator
succeeds. -/
theorem c7_tempdir_removed_witness :
    "/tmp/helm-push-123" ∉ (push stubWorldPush defaultCmd).2.2 :=
  c7_tempdir_removed stubWorldPush defaultCmd "/tmp/helm-push-123"
    ⟨"https://charts.example", "ru", "rp"⟩ ⟨"", "0.1.0"⟩ (by rfl) (by rfl) (by rfl)

/-- C8: at cm://host/a/b/foo-1.0.0.tgz with a successful body DATA,
download writes the input URL, the parsed path, and the fmt-formatted
segment slice to standard output before the body, so standard output is
not the body alone; the body is still the final write, verbatim. -/
theorem c8_stdout_diagnostics :
    download stubWorld defaultCmd "cm://host/a/b/foo-1.0.0.tgz" =
      (Except.ok (),
       ["cm://host/a/b/foo-1.0.0.tgz\n", "/a/b/foo-1.0.0.tgz\n",
        "[ a b foo-1.0.0.tgz]\n", "DATA"]) ∧
    (download stubWorld defaultCmd "cm://host/a/b/foo-1.0.0.tgz").2 ≠ ["DATA"] ∧
    (download stubWorld defaultCmd "cm://host/a/b/foo-1.0.0.tgz").2.getLast? =
      some "DATA" :=
  ⟨by rfl, by decide, by decide⟩

lemma download_depends_only_on_client (w1 w2 : World) (p : pushCmd) (fileURL : String)
    (hag : ∀ cfg fp, cfg.username = p.username → cfg.password = p.password →
      cfg.accessToken = p.accessToken → cfg.contextPath = p.contextPath →
      w1.downloadFile cfg fp = w2.downloadFile cfg fp) :
    download w1 p fileURL = download w2 p fileURL := by
  cases hpu : parseURL fileURL with
  | none => simp only [download, hpu]
  | some u =>
    simp only [download, hpu]
    cases hdt : downloadTarget p fileURL u with
    | error e => rfl
    | ok pr =>
      obtain ⟨newURL, filePath⟩ := pr
      simp only [hag ⟨urlToString newURL, p.username, p.password, p.accessToken, p.contextPath⟩
        filePath rfl rfl rfl rfl]

/-- C10: in download mode the repository registry is never consulted —
two worlds differing only in their registry produce identical runs —
and the download client function is only ever applied to a
configuration whose username, password, access token and context path
are exactly the flag/environment-resolved parameters. -/
theorem c10_registry_noninterference :
    (∀ (w1 w2 : World) (p0 : pushCmd) (a b c url : String),
      hasPrefixString url "cm://" = true →
      w1.env = w2.env → w1.downloadFile = w2.downloadFile → w1.fs = w2.fs →
      runE w1 p0 [a, b, c, url] = runE w2 p0 [a, b, c, url]) ∧
    (∀ (w1 w2 : World) (p : pushCmd) (fileURL : String),
      (∀ cfg fp, cfg.username = p.username → cfg.password = p.password →
        cfg.accessToken = p.accessToken → cfg.contextPath = p.contextPath →
        w1.downloadFile cfg fp = w2.downloadFile cfg fp) →
      download w1 p fileURL = download w2 p fileURL) := by
  constructor
  · intro w1 w2 p0 a b c url hpre henv hdl hfs
    have hdown : ∀ q u, download w1 q u = download w2 q u := fun q u =>
      download_depends_only_on_client w1 w2 q u
        (fun cfg fp _ _ _ _ => congrFun (congrFun hdl cfg) fp)
    have hcond : ([a, b, c, url] : List String).length = 4 ∧
        hasPrefixString (([a, b, c, url] : List String).getD 3 "") "cm://" = true :=
      ⟨rfl, hpre⟩
    simp only [runE, if_pos hcond]
    rw [henv, hfs, hdown]
  · intro w1 w2 p fileURL hag
    exact download_depends_only_on_client w1 w2 p fileURL hag

/-- C10 witness: two concrete worlds that differ only in the registry
give identical download-mode runs. -/
theorem c10_registry_noninterference_witness :
    runE stubWorld defaultCmd ["helm", "x", "y", "cm://host/a/b/foo.tgz"] =
      runE stubWorldAltRegistry defaultCmd ["helm", "x", "y", "cm://host/a/b/foo.tgz"] :=
  c10_registry_noninterference.1 stubWorld stubWorldAltRegistry defaultCmd "helm" "x" "y"
    "cm://host/a/b/foo.tgz" (by decide) (by rfl) (by rfl) (by rfl)

end HelmPush
